import Mathlib

/-!
Verification of the client-side logic of the UP news dashboard (`script.js`).

The script is embedded shallowly:
* `Story` mirrors one record of `data/news.json`; fields the JSON may omit
  (`category`, `district`) are `Option String` (`none` = the JS `undefined`).
* JS dates are modelled over civil calendar dates.  `new Date().toISOString()`
  renders the current instant in UTC, while `Date.getDate`/`Date.setDate`
  operate on the local calendar; the viewer's time zone `tz : Tz` gives the
  UTC offset in minutes in effect at a UTC instant (`offAtUtc`, used when
  deriving local fields) and at a local reading (`offAtLocal`, used when
  interpreting local fields back as an instant), so zones with DST
  transitions are representable; `constTz off` is a constant-offset zone.
  Real offsets satisfy `-1440 < off < 1440`.
* DOM state (the filter inputs, the rendered card list) is carried in
  `DashState`; each event handler of `script.js` is one `Action` of the
  `step` function.
-/

namespace UPNews

/-- A calendar date as held by an HTML date input or an ISO-8601 string. -/
structure CivilDate where
  year : Nat
  month : Nat
  day : Nat
deriving DecidableEq, Repr

/-- Gregorian leap-year rule (the rule JS `Date` arithmetic follows). -/
def isLeap (y : Nat) : Bool :=
  y % 4 == 0 && (y % 100 != 0 || y % 400 == 0)

/-- Number of days of month `m` in year `y`. -/
def monthLen (y m : Nat) : Nat :=
  if m = 2 then (if isLeap y then 29 else 28)
  else if m = 4 ∨ m = 6 ∨ m = 9 ∨ m = 11 then 30
  else 31

/-- A well-formed date, within the four-digit-year era of ISO strings
(`year ≤ 9998` keeps the successor four-digit as well). -/
def DateOk (d : CivilDate) : Prop :=
  1 ≤ d.year ∧ d.year ≤ 9998 ∧ 1 ≤ d.month ∧ d.month ≤ 12 ∧
    1 ≤ d.day ∧ d.day ≤ monthLen d.year d.month

instance (d : CivilDate) : Decidable (DateOk d) := by
  unfold DateOk; infer_instance

/-- The calendar day after `d`. -/
def nextDay (d : CivilDate) : CivilDate :=
  if d.day < monthLen d.year d.month then ⟨d.year, d.month, d.day + 1⟩
  else if d.month < 12 then ⟨d.year, d.month + 1, 1⟩
  else ⟨d.year + 1, 1, 1⟩

/-- The calendar day before `d`. -/
def prevDay (d : CivilDate) : CivilDate :=
  if 1 < d.day then ⟨d.year, d.month, d.day - 1⟩
  else if 1 < d.month then ⟨d.year, d.month - 1, monthLen d.year (d.month - 1)⟩
  else ⟨d.year - 1, 12, 31⟩

/-- Two-digit zero-padded decimal rendering (for `n ≤ 99`). -/
def pad2 (n : Nat) : List Char :=
  [Nat.digitChar (n / 10), Nat.digitChar (n % 10)]

/-- Four-digit zero-padded decimal rendering (for `n ≤ 9999`). -/
def pad4 (n : Nat) : List Char :=
  pad2 (n / 100) ++ pad2 (n % 100)

/-- The characters of the ISO date `YYYY-MM-DD`. -/
def dateChars (d : CivilDate) : List Char :=
  pad4 d.year ++ '-' :: (pad2 d.month ++ '-' :: pad2 d.day)

/-- The ISO date string `YYYY-MM-DD`, as produced by
`Date.toISOString().split('T')[0]`. -/
def dateToStr (d : CivilDate) : String :=
  ⟨dateChars d⟩

/-- Shift the civil datetime `(d, min)` (`min < 1440` minutes into day `d`)
by `off` minutes, `-1440 < off < 1440`: the conversion JS performs between
the UTC timestamp of a `Date` and its local calendar fields (and back). -/
def addOffset (d : CivilDate) (min : Nat) (off : Int) : CivilDate × Nat :=
  let t : Int := (min : Int) + off
  if t < 0 then (prevDay d, (t + 1440).toNat)
  else if t < 1440 then (d, t.toNat)
  else (nextDay d, (t - 1440).toNat)

/-- The date `k` days after the first of month `m`, year `y`. -/
def addDaysFromFirst (y m k : Nat) : CivilDate :=
  Nat.iterate nextDay k ⟨y, m, 1⟩

/-- JS `Date.prototype.setDate n` on the local calendar fields of a date:
the day-of-month is set to `n`, overflowing into the following months. -/
def setDateJs (d : CivilDate) (n : Nat) : CivilDate :=
  addDaysFromFirst d.year d.month (n - 1)

/-- A viewer's time zone, as JS `Date` consults it: `offAtUtc d min` is
the UTC offset (minutes) in effect at the UTC instant `(d, min)`, used
when converting the internal timestamp to local calendar fields;
`offAtLocal d min` is the offset chosen when interpreting local calendar
fields `(d, min)` back as an instant (ECMA-262's `UTC(t)`/LocalTZA with
its disambiguation of skipped and repeated local times).  Across a DST
transition the two differ between instants. -/
structure Tz where
  offAtUtc : CivilDate → Nat → Int
  offAtLocal : CivilDate → Nat → Int

/-- A zone with no transitions: both conversions use the same constant
offset. -/
def constTz (off : Int) : Tz :=
  ⟨fun _ _ => off, fun _ _ => off⟩

/-- `script.js`, `applyFilters` end-date arm: `new Date(endDate)` is UTC
midnight of `endD`; `end.setDate(end.getDate() + 1)` reads and writes the
LOCAL calendar fields (derived with the offset in effect at that UTC
instant); `end.toISOString().split('T')[0]` renders the new timestamp —
obtained by interpreting the bumped local fields at the offset in effect
there — back in UTC. -/
def endNextIso (endD : CivilDate) (tz : Tz) : String :=
  let localDT := addOffset endD 0 (tz.offAtUtc endD 0)
  let bumped := setDateJs localDT.1 (localDT.1.day + 1)
  let utc := addOffset bumped localDT.2 (-(tz.offAtLocal bumped localDT.2))
  dateToStr utc.1

/-- ECMAScript's abstract relational comparison `a < b` on strings:
code-unit lexicographic (our data is ASCII, so code unit = scalar
value). -/
def jsLtChars : List Char → List Char → Bool
  | [], [] => false
  | [], _ :: _ => true
  | _ :: _, [] => false
  | a :: as, b :: bs =>
    if a < b then true
    else if b < a then false
    else jsLtChars as bs

/-- JS `a < b` on strings. -/
def jsLt (a b : String) : Bool :=
  jsLtChars a.data b.data

/-- JS `a >= b` on strings: the negation of `a < b`. -/
def jsGe (a b : String) : Bool :=
  !jsLt a b

/-- JS `s.startsWith(pre)`. -/
def strStartsWith (s pre : String) : Bool :=
  pre.data.isPrefixOf s.data

/-- One record of `data/news.json`.  `category` and `district` may be
absent (`none`) or empty (`some ""`). -/
structure Story where
  title : String
  link : String
  pubDate : String
  source : String
  district : Option String
  category : Option String
  summary : String
deriving DecidableEq, Repr

/-- The filter inputs read by `applyFilters`: the two date inputs (a date
input holds a calendar date or is empty), and the category and district
selects (sentinel `"All"`). -/
structure FilterState where
  startDate : String
  endDate : Option CivilDate
  category : String
  district : String
deriving DecidableEq, Repr

/-- `script.js`, `applyFilters` lines 98-119: the four independently
optional predicates, applied in sequence to the full story list. -/
def filterEngine (tz : Tz) (fs : FilterState) (stories : List Story) : List Story :=
  let f1 := if fs.startDate = "" then stories
            else stories.filter (fun s => jsGe s.pubDate fs.startDate)
  let f2 := match fs.endDate with
            | none => f1
            | some d => f1.filter (fun s => jsLt s.pubDate (endNextIso d tz))
  let f3 := if fs.category ≠ "" ∧ fs.category ≠ "All" then
              f2.filter (fun s => s.category == some fs.category)
            else f2
  let f4 := if fs.district ≠ "" ∧ fs.district ≠ "All" then
              f3.filter (fun s => s.district == some fs.district)
            else f3
  f4

/-- `renderPage` lines 158-161: `filteredStories.slice((page-1)*ipp,
(page-1)*ipp + ipp)`. -/
def paginate (l : List Story) (ipp page : Nat) : List Story :=
  (l.drop ((page - 1) * ipp)).take ipp

/-- `renderPagination` line 169: `Math.ceil(filteredStories.length / ipp)`
(for `ipp > 0`). -/
def totalPages (len ipp : Nat) : Nat :=
  (len + ipp - 1) / ipp

/-- `categoryToSlug`'s `replace(/\s+/g, '-')`, one character at a time:
`inRun` records whether the previous character was whitespace, so each
maximal run of whitespace becomes one hyphen. -/
def collapseWsAux : Bool → List Char → List Char
  | _, [] => []
  | inRun, c :: rest =>
    if c.isWhitespace then
      if inRun then collapseWsAux true rest
      else '-' :: collapseWsAux true rest
    else c :: collapseWsAux false rest

/-- `replace(/\s+/g, '-')`: each maximal run of whitespace becomes one
hyphen. -/
def collapseWs (l : List Char) : List Char :=
  collapseWsAux false l

/-- `categoryToSlug` lines 124-126: lower-case, then collapse whitespace
runs to single hyphens (ASCII lowering; the categories are ASCII). -/
def categoryToSlug (cat : String) : String :=
  ⟨collapseWs (cat.data.map Char.toLower)⟩

/-- JS `x || dflt` for a string field: `undefined` and `""` are falsy. -/
def jsOr (o : Option String) (dflt : String) : String :=
  match o with
  | none => dflt
  | some s => if s = "" then dflt else s

/-- JS template interpolation `${x}` of a possibly-absent string field:
`undefined` renders as the text "undefined". -/
def jsUndef (o : Option String) : String :=
  match o with
  | none => "undefined"
  | some s => s

/-- One rendered news card (lines 147-153); `meta` is the
date-source-district line. -/
structure Card where
  title : String
  link : String
  meta : String
  badgeClass : String
  badgeLabel : String
  summary : String
deriving DecidableEq, Repr

/-- `render`'s per-item card construction, lines 137-155.  `fmtDate`
abstracts the locale-dependent `toLocaleString` rendering of `pubDate`. -/
def renderCard (fmtDate : String → String) (item : Story) : Card :=
  { title := item.title
    link := item.link
    meta := fmtDate item.pubDate ++ " • " ++ item.source ++ " • " ++ jsUndef item.district
    badgeClass := "badge-" ++ categoryToSlug (jsOr item.category "Uncategorised")
    badgeLabel := jsUndef item.category
    summary := item.summary }

/-- What `render` puts in the container: the empty-state message, or one
card per story. -/
inductive RenderOutput where
  | emptyMessage (msg : String)
  | cards (cs : List Card)
deriving DecidableEq

/-- `render` lines 128-156. -/
def render (fmtDate : String → String) (list : List Story) : RenderOutput :=
  if list.isEmpty then .emptyMessage "No news articles match the selected filters."
  else .cards (list.map (renderCard fmtDate))

/-- The current instant in UTC: calendar date plus minute of day. -/
structure Clock where
  utcDate : CivilDate
  utcMinute : Nat
deriving DecidableEq, Repr

/-- The mutable page state: the loaded collection, the module-level
variables of `script.js`, the filter input elements, and the story list
whose cards are currently in the container. -/
structure DashState where
  stories : List Story
  filteredStories : List Story
  currentPage : Nat
  itemsPerPage : Nat
  startInput : String
  endInput : Option CivilDate
  categoryInput : String
  districtInput : String
  renderedItems : List Story
deriving DecidableEq, Repr

/-- `parseInt(v, 10) || 50` on a select value (a non-negative numeral):
the leading digits, with NaN (no digits) and 0 falling back to 50. -/
def jsParseIntOr50 (v : String) : Nat :=
  match v.data.takeWhile Char.isDigit with
  | [] => 50
  | ds =>
    let n := ds.foldl (fun n c => 10 * n + (c.toNat - 48)) 0
    if n = 0 then 50 else n

/-- `renderPage page` lines 158-164: put the slice for `page` in the
container. -/
def renderPageFn (page : Nat) (st : DashState) : DashState :=
  { st with renderedItems := paginate st.filteredStories st.itemsPerPage page }

/-- `applyFilters` lines 91-122: recompute `filteredStories` from the
inputs, reset `currentPage` to 1, render the first page. -/
def applyFiltersFn (tz : Tz) (st : DashState) : DashState :=
  let st' := { st with
    filteredStories :=
      filterEngine tz ⟨st.startInput, st.endInput, st.categoryInput, st.districtInput⟩ st.stories,
    currentPage := 1 }
  renderPageFn st'.currentPage st'

/-- The user events `script.js` handles: a change of each filter input,
the items-per-page change, the two buttons, and a pagination button. -/
inductive Action where
  | setStart (v : String)
  | setEnd (v : Option CivilDate)
  | setCategory (v : String)
  | setDistrict (v : String)
  | setItems (v : String)
  | today
  | reset
  | pageClick (i : Nat)
deriving DecidableEq, Repr

/-- The event handlers of `script.js` as one transition function.  `tz`
is the viewer's time zone, `now` the current UTC instant. -/
def step (tz : Tz) (now : Clock) : Action → DashState → DashState
  | .setStart v, st => applyFiltersFn tz { st with startInput := v }
  | .setEnd v, st => applyFiltersFn tz { st with endInput := v }
  | .setCategory v, st => applyFiltersFn tz { st with categoryInput := v }
  | .setDistrict v, st => applyFiltersFn tz { st with districtInput := v }
  | .setItems v, st =>
      applyFiltersFn tz { st with itemsPerPage := jsParseIntOr50 v, currentPage := 1 }
  | .today, st =>
      let todayStr := dateToStr now.utcDate
      let st' := { st with
        filteredStories := (st.stories.filter (fun s => strStartsWith s.pubDate todayStr)).take 50,
        itemsPerPage := 50,
        currentPage := 1 }
      renderPageFn st'.currentPage st'
  | .reset, st =>
      applyFiltersFn tz { st with
        startInput := "", endInput := none, categoryInput := "All", districtInput := "All",
        itemsPerPage := 50, currentPage := 1 }
  | .pageClick i, st => renderPageFn i { st with currentPage := i }

/-- Modelled from the spec (§4.3), for comparison with the `today`
handler: "compute today's calendar date (in the viewer's local system
clock), select only stories whose `pubDate` textually starts with that
date, take at most the first 50 such stories in their existing order".
The local calendar date is the UTC instant shifted by the offset the
viewer's zone assigns to it. -/
def todayLocalSpec (tz : Tz) (now : Clock) (stories : List Story) : List Story :=
  let localStr := dateToStr (addOffset now.utcDate now.utcMinute
    (tz.offAtUtc now.utcDate now.utcMinute)).1
  (stories.filter (fun s => strStartsWith s.pubDate localStr)).take 50

/-! ## Lexicographic order on character lists

`String`'s `<` is `List.lt` on the character data; these lemmas let us
compare ISO date strings positionally. -/

theorem append_lt_left (p : List Char) {as bs : List Char} (h : as < bs) :
    p ++ as < p ++ bs := by
  induction p with
  | nil => exact h
  | cons c p ih => exact List.Lex.cons ih

theorem lt_append_of_lt : ∀ {as bs : List Char}, as < bs → as.length = bs.length →
    ∀ r t : List Char, as ++ r < bs ++ t := by
  intro as bs h
  induction h with
  | nil => intro hlen; simp at hlen
  | cons h ih => intro hlen r t; exact List.Lex.cons (ih (by simpa using hlen) r t)
  | rel h => intro _ r t; exact List.Lex.rel h

theorem digitChar_lt : ∀ a, a < 10 → ∀ b, b < 10 → a < b →
    Nat.digitChar a < Nat.digitChar b := by decide

theorem pad2_lt {a b : Nat} (hab : a < b) (hb : b ≤ 99) : pad2 a < pad2 b := by
  rcases Nat.lt_or_ge (a / 10) (b / 10) with h | h
  · exact List.Lex.rel (digitChar_lt _ (by omega) _ (by omega) h)
  · have he : a / 10 = b / 10 :=
      Nat.le_antisymm (Nat.div_le_div_right (Nat.le_of_lt hab)) h
    have hm : a % 10 < b % 10 := by omega
    rw [pad2, pad2, he]
    exact List.Lex.cons (List.Lex.rel (digitChar_lt _ (by omega) _ (by omega) hm))

theorem pad2_length (n : Nat) : (pad2 n).length = 2 := rfl

theorem pad4_lt {a b : Nat} (hab : a < b) (hb : b ≤ 9999) : pad4 a < pad4 b := by
  rcases Nat.lt_or_ge (a / 100) (b / 100) with h | h
  · exact lt_append_of_lt (pad2_lt h (by omega)) rfl _ _
  · have he : a / 100 = b / 100 :=
      Nat.le_antisymm (Nat.div_le_div_right (Nat.le_of_lt hab)) h
    have hm : a % 100 < b % 100 := by omega
    rw [pad4, pad4, he]
    exact append_lt_left _ (pad2_lt hm (by omega))

theorem pad4_length (n : Nat) : (pad4 n).length = 4 := rfl

theorem dateChars_length (d : CivilDate) : (dateChars d).length = 10 := by
  simp [dateChars, pad4, pad2]

/-! ## Calendar lemmas -/

theorem monthLen_pos (y m : Nat) : 1 ≤ monthLen y m := by
  unfold monthLen
  split
  · split <;> omega
  · split <;> omega

theorem monthLen_le (y m : Nat) : monthLen y m ≤ 31 := by
  unfold monthLen
  split
  · split <;> omega
  · split <;> omega

theorem monthLen_twelve (y : Nat) : monthLen y 12 = 31 := by
  unfold monthLen
  norm_num

theorem dateChars_lt_next {d : CivilDate} (hd : DateOk d) :
    dateChars d < dateChars (nextDay d) := by
  obtain ⟨y, m, dd⟩ := d
  obtain ⟨h1, h2, h3, h4, h5, h6⟩ := hd
  simp only at h1 h2 h3 h4 h5 h6
  have hlen := monthLen_le y m
  unfold nextDay
  split
  · rename_i h
    simp only at h
    unfold dateChars
    simp only
    apply append_lt_left
    apply List.Lex.cons
    apply append_lt_left
    apply List.Lex.cons
    exact pad2_lt (by omega) (by omega)
  · rename_i h
    split
    · rename_i h'
      simp only at h'
      unfold dateChars
      simp only
      apply append_lt_left
      apply List.Lex.cons
      refine lt_append_of_lt (pad2_lt ?_ ?_) ?_ _ _
      · omega
      · omega
      · rfl
    · unfold dateChars
      simp only
      refine lt_append_of_lt (pad4_lt ?_ ?_) ?_ _ _
      · omega
      · omega
      · rfl

theorem iterate_nextDay_first (y m : Nat) :
    ∀ k, k + 1 ≤ monthLen y m → Nat.iterate nextDay k ⟨y, m, 1⟩ = ⟨y, m, k + 1⟩ := by
  intro k
  induction k with
  | zero => intro _; rfl
  | succ n ih =>
    intro h
    rw [Function.iterate_succ_apply', ih (by omega)]
    unfold nextDay
    rw [if_pos]
    exact (by simp only; omega)

theorem setDateJs_succ {d : CivilDate} (h1 : 1 ≤ d.day)
    (h2 : d.day ≤ monthLen d.year d.month) :
    setDateJs d (d.day + 1) = nextDay d := by
  unfold setDateJs addDaysFromFirst
  have e1 : d.day + 1 - 1 = (d.day - 1) + 1 := by omega
  rw [e1, Function.iterate_succ_apply', iterate_nextDay_first _ _ _ (by omega)]
  have e2 : d.day - 1 + 1 = d.day := by omega
  rw [e2]

theorem prevDay_ok {d : CivilDate} (hd : DateOk d) :
    1 ≤ (prevDay d).day ∧
      (prevDay d).day ≤ monthLen (prevDay d).year (prevDay d).month ∧
      nextDay (prevDay d) = d := by
  obtain ⟨y, m, dd⟩ := d
  obtain ⟨h1, h2, h3, h4, h5, h6⟩ := hd
  simp only at h1 h2 h3 h4 h5 h6
  have hpos := monthLen_pos y m
  unfold prevDay
  split
  · rename_i h
    simp only at h ⊢
    refine ⟨by omega, by omega, ?_⟩
    unfold nextDay
    rw [if_pos (by simp only; omega)]
    simp only
    congr 1
    omega
  · rename_i h
    simp only at h
    split
    · rename_i h'
      simp only at h' ⊢
      have hp := monthLen_pos y (m - 1)
      refine ⟨by omega, by omega, ?_⟩
      unfold nextDay
      rw [if_neg (by simp only; omega), if_pos (by simp only; omega)]
      simp only
      have : dd = 1 := by omega
      subst this
      congr 1
      omega
    · rename_i h'
      simp only at h' ⊢
      have h12 := monthLen_twelve (y - 1)
      refine ⟨by omega, by omega, ?_⟩
      unfold nextDay
      rw [if_neg (by simp only; omega), if_neg (by simp only; omega)]
      simp only
      have hm : m = 1 := by omega
      have hdd : dd = 1 := by omega
      subst hm; subst hdd
      congr 1
      omega

theorem addOffset_eq_low (d : CivilDate) (min : Nat) (off : Int)
    (h : (min : Int) + off < 0) :
    addOffset d min off = (prevDay d, ((min : Int) + off + 1440).toNat) := by
  unfold addOffset
  rw [if_pos h]

theorem addOffset_eq_mid (d : CivilDate) (min : Nat) (off : Int)
    (h0 : ¬ (min : Int) + off < 0) (h1 : (min : Int) + off < 1440) :
    addOffset d min off = (d, ((min : Int) + off).toNat) := by
  unfold addOffset
  rw [if_neg h0, if_pos h1]

theorem addOffset_eq_high (d : CivilDate) (min : Nat) (off : Int)
    (h0 : ¬ (min : Int) + off < 0) (h1 : ¬ (min : Int) + off < 1440) :
    addOffset d min off = (nextDay d, ((min : Int) + off - 1440).toNat) := by
  unfold addOffset
  rw [if_neg h0, if_neg h1]

theorem endNextIso_eq {d : CivilDate} (hd : DateOk d) {off : Int}
    (hlo : -1440 < off) (hhi : off < 1440) :
    endNextIso d (constTz off) = dateToStr (nextDay d) := by
  have hday1 : 1 ≤ d.day := hd.2.2.2.2.1
  have hday2 : d.day ≤ monthLen d.year d.month := hd.2.2.2.2.2
  simp only [endNextIso, constTz]
  rcases le_or_lt 0 off with hpos | hneg
  · rw [addOffset_eq_mid d 0 off (by omega) (by omega)]
    simp only
    rw [setDateJs_succ hday1 hday2,
      addOffset_eq_mid (nextDay d) (((0 : Nat) : Int) + off).toNat (-off)
        (by omega) (by omega)]
  · obtain ⟨hp1, hp2, hp3⟩ := prevDay_ok hd
    rw [addOffset_eq_low d 0 off (by omega)]
    simp only
    rw [setDateJs_succ hp1 hp2, hp3,
      addOffset_eq_high d (((0 : Nat) : Int) + off + 1440).toNat (-off)
        (by omega) (by omega)]

theorem dateStr_append_lt_next {d : CivilDate} (hd : DateOk d) (r : String) :
    dateToStr d ++ r < dateToStr (nextDay d) := by
  rw [String.lt_iff_toList_lt]
  have h := lt_append_of_lt (dateChars_lt_next hd)
    (by rw [dateChars_length, dateChars_length]) r.toList []
  simpa [dateToStr, String.toList] using h

/-! ## The JS string comparison agrees with the lexicographic order -/

theorem jsLtChars_iff : ∀ as bs : List Char, jsLtChars as bs = true ↔ as < bs := by
  intro as
  induction as with
  | nil =>
    intro bs
    cases bs with
    | nil =>
      simp only [jsLtChars, Bool.false_eq_true, false_iff]
      exact List.Lex.not_nil_right _ _
    | cons b bs =>
      simp only [jsLtChars, true_iff]
      exact List.Lex.nil
  | cons a as ih =>
    intro bs
    cases bs with
    | nil =>
      simp only [jsLtChars, Bool.false_eq_true, false_iff]
      exact List.Lex.not_nil_right _ _
    | cons b bs =>
      rw [jsLtChars]
      rcases lt_trichotomy a b with h | h | h
      · rw [if_pos h]
        simp only [true_iff]
        exact List.Lex.rel h
      · subst h
        rw [if_neg (lt_irrefl a), if_neg (lt_irrefl a), ih bs]
        constructor
        · exact fun hl => List.Lex.cons hl
        · intro hl
          cases hl with
          | cons hl => exact hl
          | rel hr => exact absurd hr (lt_irrefl a)
      · rw [if_neg (asymm h), if_pos h]
        simp only [Bool.false_eq_true, false_iff]
        intro hl
        cases hl with
        | cons hl => exact absurd h (lt_irrefl a)
        | rel hr => exact absurd hr (asymm h)

theorem jsLt_iff (a b : String) : jsLt a b = true ↔ a < b := by
  rw [jsLt, jsLtChars_iff]
  exact String.lt_iff_toList_lt.symm

theorem jsGe_iff (a b : String) : jsGe a b = true ↔ b ≤ a := by
  rw [jsGe]
  cases hj : jsLt a b with
  | false =>
    simp only [Bool.not_false, true_iff]
    have hn : ¬ a < b := by
      rw [← jsLt_iff, hj]
      exact Bool.false_ne_true
    exact not_lt.mp hn
  | true =>
    simp only [Bool.not_true, Bool.false_eq_true, false_iff, not_le]
    exact (jsLt_iff a b).mp hj

/-! ## Filter engine unfoldings -/

theorem filterEngine_default (tz : Tz) (l : List Story) :
    filterEngine tz ⟨"", none, "All", "All"⟩ l = l := by
  simp [filterEngine]

theorem filterEngine_start_only (tz : Tz) (D : String) (l : List Story)
    (hD : D ≠ "") :
    filterEngine tz ⟨D, none, "All", "All"⟩ l
      = l.filter (fun s => jsGe s.pubDate D) := by
  simp [filterEngine, hD]

theorem filterEngine_end_only (tz : Tz) (d : CivilDate) (l : List Story) :
    filterEngine tz ⟨"", some d, "All", "All"⟩ l
      = l.filter (fun s => jsLt s.pubDate (endNextIso d tz)) := by
  simp [filterEngine]

theorem ite_sublist {c : Prop} [Decidable c] {x y z : List Story}
    (hx : x.Sublist z) (hy : y.Sublist z) : (if c then x else y).Sublist z := by
  split <;> assumption

theorem filterEngine_sublist (tz : Tz) (fs : FilterState) (l : List Story) :
    (filterEngine tz fs l).Sublist l := by
  obtain ⟨sd, ed, cat, dis⟩ := fs
  have h1 : (if sd = "" then l
      else l.filter (fun s => jsGe s.pubDate sd)).Sublist l :=
    ite_sublist (List.Sublist.refl l) (List.filter_sublist l)
  cases ed with
  | none =>
    refine ite_sublist ((List.filter_sublist _).trans ?_) ?_ <;>
      refine ite_sublist ((List.filter_sublist _).trans ?_) ?_ <;>
      exact h1
  | some d =>
    refine ite_sublist ((List.filter_sublist _).trans ?_) ?_ <;>
      refine ite_sublist ((List.filter_sublist _).trans ?_) ?_ <;>
      exact (List.filter_sublist _).trans h1

/-! ## Sample data for witnesses -/

/-- A story with the given publication date and no optional fields. -/
def sampleStory (pd : String) : Story :=
  ⟨"t", "l", pd, "src", none, none, "sum"⟩

def storyGovLko : Story :=
  ⟨"a", "l", "2024-05-01T09:00", "src", some "Lucknow", some "Governance issues", "s"⟩

def storyGovKnp : Story :=
  ⟨"b", "l", "2024-05-02T09:00", "src", some "Kanpur", some "Governance issues", "s"⟩

def storyNdaLko : Story :=
  ⟨"c", "l", "2024-05-03T09:00", "src", some "Lucknow", some "NDA Activity", "s"⟩

/-- America/New_York in March 2024: Eastern Standard Time (offset −300)
until the spring-forward transition of Sunday 2024-03-10 — 07:00 UTC,
which is 02:00 local — and Eastern Daylight Time (−240) from it on.
(Month fixed to March 2024; only the dates the counterexample touches
matter.) -/
def nyMarch2024 : Tz where
  offAtUtc := fun d min =>
    if d.day < 10 ∨ (d.day = 10 ∧ min < 420) then -300 else -240
  offAtLocal := fun d min =>
    if d.day < 10 ∨ (d.day = 10 ∧ min < 120) then -300 else -240

/-! ## Claims -/

/-- C2 counterexample: for a New York viewer, the end-date computation
for 2024-03-10 — the spring-forward day — crosses the DST transition:
`new Date("2024-03-10")` is local Mar 9 19:00 EST, `setDate(10)` gives
local Mar 10 19:00, which EDT interprets as 23:00 UTC of Mar 10, so the
cutoff is the chosen day itself and a story dated on that day is
excluded: the end date is not inclusive of the entire chosen day. -/
theorem end_date_not_inclusive_dst_cex :
    endNextIso ⟨2024, 3, 10⟩ nyMarch2024 = "2024-03-10" ∧
    sampleStory "2024-03-10T09:00" ∉
      filterEngine nyMarch2024 ⟨"", some ⟨2024, 3, 10⟩, "All", "All"⟩
        [sampleStory "2024-03-10T09:00"] := by decide

/-- C2 amended: in a time zone whose UTC offset is constant across the
computation (no DST transition involved), the end-date filter is
inclusive of the entire chosen day: every story the filter keeps has
`pubDate` lexically below the ISO string of the calendar day after `D`,
and every story whose `pubDate` starts with `D`'s ISO date is kept. -/
theorem end_date_inclusive (off : Int) (D : CivilDate) (stories : List Story)
    (hD : DateOk D) (hlo : -1440 < off) (hhi : off < 1440) :
    (∀ s ∈ filterEngine (constTz off) ⟨"", some D, "All", "All"⟩ stories,
        s.pubDate < dateToStr (nextDay D)) ∧
    (∀ s ∈ stories, ∀ r : String, s.pubDate = dateToStr D ++ r →
        s ∈ filterEngine (constTz off) ⟨"", some D, "All", "All"⟩ stories) := by
  rw [filterEngine_end_only]
  constructor
  · intro s hs
    rw [List.mem_filter] at hs
    have h2 := (jsLt_iff _ _).mp hs.2
    rwa [endNextIso_eq hD hlo hhi] at h2
  · intro s hs r hr
    rw [List.mem_filter]
    refine ⟨hs, (jsLt_iff _ _).mpr ?_⟩
    rw [endNextIso_eq hD hlo hhi, hr]
    exact dateStr_append_lt_next hD r

/-- C2 witness: a story dated exactly on the end day 2024-05-01 is kept
by the end-date filter, for a viewer at UTC+5:30. -/
theorem end_date_inclusive_witness :
    sampleStory "2024-05-01T09:00" ∈
      filterEngine (constTz 330) ⟨"", some ⟨2024, 5, 1⟩, "All", "All"⟩
        [sampleStory "2024-05-01T09:00"] :=
  (end_date_inclusive 330 ⟨2024, 5, 1⟩ [sampleStory "2024-05-01T09:00"]
      (by decide) (by decide) (by decide)).2
    (sampleStory "2024-05-01T09:00") (by simp) "T09:00" (by decide)

/-- C6: the start-date filter is a lexical lower bound: every story the
filter keeps satisfies `startDate ≤ pubDate` (JS `>=` on strings), and no
story with `pubDate < startDate` is in the result. -/
theorem start_date_lower_bound (tz : Tz) (D : String) (stories : List Story)
    (hD : D ≠ "") :
    (∀ s ∈ filterEngine tz ⟨D, none, "All", "All"⟩ stories, D ≤ s.pubDate) ∧
    (∀ s, s.pubDate < D →
        s ∉ filterEngine tz ⟨D, none, "All", "All"⟩ stories) := by
  rw [filterEngine_start_only tz D stories hD]
  constructor
  · intro s hs
    rw [List.mem_filter] at hs
    exact (jsGe_iff _ _).mp hs.2
  · intro s hlt hs
    rw [List.mem_filter] at hs
    exact ((jsGe_iff _ _).mp hs.2).not_lt hlt

/-- C6 witness: with start date 2024-05-02, a story kept by the filter
indeed has `pubDate ≥ startDate`. -/
theorem start_date_lower_bound_witness :
    ("2024-05-02" : String) ≤ "2024-05-02T09:00" :=
  (start_date_lower_bound (constTz 0) "2024-05-02" [sampleStory "2024-05-02T09:00"]
      (by decide)).1
    (sampleStory "2024-05-02T09:00") (by decide)

/-- C4: active predicates combine by AND: a category filter (not the
"All" sentinel, not empty) together with a district filter yields exactly
the stories satisfying both equalities, and an absent or "All" filter
value is not applied at all. -/
theorem filters_and_semantics (tz : Tz) (C Dd : String) (stories : List Story)
    (hC1 : C ≠ "") (hC2 : C ≠ "All") (hD1 : Dd ≠ "") (hD2 : Dd ≠ "All") :
    filterEngine tz ⟨"", none, C, Dd⟩ stories
        = stories.filter (fun s => s.category == some C && s.district == some Dd) ∧
    filterEngine tz ⟨"", none, "All", "All"⟩ stories = stories ∧
    filterEngine tz ⟨"", none, "", ""⟩ stories = stories := by
  refine ⟨?_, filterEngine_default tz stories, by simp [filterEngine]⟩
  simp only [filterEngine, hC1, hC2, hD1, hD2, ne_eq, not_false_iff, and_self,
    if_true, if_pos, List.filter_filter]
  exact List.filter_congr (fun a _ => by rw [Bool.and_comm])

/-- C4 witness: category "Governance issues" AND district "Lucknow"
select exactly the one story carrying both. -/
theorem filters_and_semantics_witness :
    filterEngine (constTz 0) ⟨"", none, "Governance issues", "Lucknow"⟩
        [storyGovLko, storyGovKnp, storyNdaLko] = [storyGovLko] :=
  ((filters_and_semantics (constTz 0) "Governance issues" "Lucknow"
      [storyGovLko, storyGovKnp, storyNdaLko]
      (by decide) (by decide) (by decide) (by decide)).1).trans (by decide)

/-- C3: the paginator returns the contiguous slice over the half-open
range `[(page-1)*ipp, page*ipp)` clamped to the collection, and for 125
items at 50 per page: 3 total pages, page 3 is the last 25 items, page 4
is empty. -/
theorem paginator_halfopen_slice (fs : List Story) (ipp p i : Nat) :
    ((paginate fs ipp p)[i]? =
        if i < ipp then fs[(p - 1) * ipp + i]? else none) ∧
    (fs.length = 125 →
      totalPages fs.length 50 = 3 ∧
      paginate fs 50 3 = fs.drop 100 ∧
      paginate fs 50 4 = []) := by
  constructor
  · unfold paginate
    split
    · rename_i h
      rw [List.getElem?_take_of_lt h, List.getElem?_drop]
    · rename_i h
      apply List.getElem?_eq_none
      have := List.length_take ipp (fs.drop ((p - 1) * ipp))
      omega
  · intro h
    refine ⟨by rw [h]; rfl, ?_, ?_⟩
    · show (fs.drop 100).take 50 = fs.drop 100
      exact List.take_of_length_le (by rw [List.length_drop, h]; omega)
    · show (fs.drop 150).take 50 = []
      rw [List.drop_eq_nil_of_le (by omega), List.take_nil]

/-- C3 witness: the 125-item facts at a concrete 125-story list. -/
theorem paginator_halfopen_slice_witness :
    totalPages (List.replicate 125 (sampleStory "d")).length 50 = 3 ∧
    paginate (List.replicate 125 (sampleStory "d")) 50 3
        = (List.replicate 125 (sampleStory "d")).drop 100 ∧
    paginate (List.replicate 125 (sampleStory "d")) 50 4 = [] :=
  (paginator_halfopen_slice (List.replicate 125 (sampleStory "d")) 50 3 0).2
    (by simp)

/-- C5: Reset is idempotent: a second Reset leaves the state of the first
unchanged, and after Reset the filtered collection is the full collection
(the default filter pass selects everything), itemsPerPage is 50 and
currentPage is 1. -/
theorem reset_idempotent (tz : Tz) (now : Clock) (st : DashState) :
    step tz now .reset (step tz now .reset st) = step tz now .reset st ∧
    (step tz now .reset st).filteredStories = st.stories ∧
    (step tz now .reset st).itemsPerPage = 50 ∧
    (step tz now .reset st).currentPage = 1 := by
  refine ⟨rfl, ?_, rfl, rfl⟩
  show filterEngine tz ⟨"", none, "All", "All"⟩ st.stories = st.stories
  exact filterEngine_default tz st.stories

/-- C9: every filter application and every items-per-page change resets
`currentPage` to 1 and renders the first page of the newly filtered set. -/
theorem page_resets_to_one (tz : Tz) (now : Clock) (v : String)
    (e : Option CivilDate) (st : DashState) :
    ((step tz now (.setStart v) st).currentPage = 1 ∧
      (step tz now (.setStart v) st).renderedItems
        = (step tz now (.setStart v) st).filteredStories.take
            (step tz now (.setStart v) st).itemsPerPage) ∧
    ((step tz now (.setEnd e) st).currentPage = 1 ∧
      (step tz now (.setEnd e) st).renderedItems
        = (step tz now (.setEnd e) st).filteredStories.take
            (step tz now (.setEnd e) st).itemsPerPage) ∧
    ((step tz now (.setCategory v) st).currentPage = 1 ∧
      (step tz now (.setCategory v) st).renderedItems
        = (step tz now (.setCategory v) st).filteredStories.take
            (step tz now (.setCategory v) st).itemsPerPage) ∧
    ((step tz now (.setDistrict v) st).currentPage = 1 ∧
      (step tz now (.setDistrict v) st).renderedItems
        = (step tz now (.setDistrict v) st).filteredStories.take
            (step tz now (.setDistrict v) st).itemsPerPage) ∧
    ((step tz now (.setItems v) st).currentPage = 1 ∧
      (step tz now (.setItems v) st).renderedItems
        = (step tz now (.setItems v) st).filteredStories.take
            (step tz now (.setItems v) st).itemsPerPage) := by
  refine ⟨⟨rfl, ?_⟩, ⟨rfl, ?_⟩, ⟨rfl, ?_⟩, ⟨rfl, ?_⟩, ⟨rfl, ?_⟩⟩ <;>
    simp [step, applyFiltersFn, renderPageFn, paginate]

/-- C10: no action mutates the loaded collection; `filteredStories`
remains an order-preserving subsequence of it; and the rendered page is a
contiguous slice of `filteredStories`. -/
theorem state_invariants (tz : Tz) (now : Clock) (a : Action) (st : DashState)
    (hinv : st.filteredStories.Sublist st.stories) :
    (step tz now a st).stories = st.stories ∧
    (step tz now a st).filteredStories.Sublist (step tz now a st).stories ∧
    ∃ k n, (step tz now a st).renderedItems
        = ((step tz now a st).filteredStories.drop k).take n := by
  cases a with
  | setStart v => exact ⟨rfl, filterEngine_sublist tz _ _, _, _, rfl⟩
  | setEnd e => exact ⟨rfl, filterEngine_sublist tz _ _, _, _, rfl⟩
  | setCategory v => exact ⟨rfl, filterEngine_sublist tz _ _, _, _, rfl⟩
  | setDistrict v => exact ⟨rfl, filterEngine_sublist tz _ _, _, _, rfl⟩
  | setItems v => exact ⟨rfl, filterEngine_sublist tz _ _, _, _, rfl⟩
  | today =>
    exact ⟨rfl, (List.take_sublist _ _).trans (List.filter_sublist _), _, _, rfl⟩
  | reset =>
    refine ⟨rfl, ?_, _, _, rfl⟩
    show (filterEngine tz ⟨"", none, "All", "All"⟩ st.stories).Sublist st.stories
    exact filterEngine_sublist tz _ _
  | pageClick i => exact ⟨rfl, hinv, _, _, rfl⟩

/-- C10 witness: the invariant instantiated at a concrete state and the
Today action. -/
theorem state_invariants_witness :
    (step (constTz 0) ⟨⟨2024, 5, 2⟩, 0⟩ .today
        ⟨[sampleStory "2024-05-02T09:00"], [sampleStory "2024-05-02T09:00"],
          1, 50, "", none, "All", "All", []⟩).stories
      = [sampleStory "2024-05-02T09:00"] ∧
    (step (constTz 0) ⟨⟨2024, 5, 2⟩, 0⟩ .today
        ⟨[sampleStory "2024-05-02T09:00"], [sampleStory "2024-05-02T09:00"],
          1, 50, "", none, "All", "All", []⟩).filteredStories.Sublist
      (step (constTz 0) ⟨⟨2024, 5, 2⟩, 0⟩ .today
        ⟨[sampleStory "2024-05-02T09:00"], [sampleStory "2024-05-02T09:00"],
          1, 50, "", none, "All", "All", []⟩).stories :=
  have h := state_invariants (constTz 0) ⟨⟨2024, 5, 2⟩, 0⟩ .today
    ⟨[sampleStory "2024-05-02T09:00"], [sampleStory "2024-05-02T09:00"],
      1, 50, "", none, "All", "All", []⟩ (by simp)
  ⟨h.1, h.2.1⟩

/-- Characters of a collapsed list: each is the hyphen or a
non-whitespace character of the input. -/
theorem collapseWsAux_chars : ∀ (l : List Char) (b : Bool), ∀ c ∈ collapseWsAux b l,
    c = '-' ∨ (c ∈ l ∧ c.isWhitespace = false) := by
  intro l
  induction l with
  | nil => intro b c hc; simp [collapseWsAux] at hc
  | cons a rest ih =>
    intro b c hc
    rw [collapseWsAux] at hc
    by_cases hw : a.isWhitespace
    · rw [if_pos hw] at hc
      cases b with
      | true =>
        rcases ih true c hc with h | ⟨h1, h2⟩
        · exact Or.inl h
        · exact Or.inr ⟨List.mem_cons_of_mem a h1, h2⟩
      | false =>
        rw [if_neg (by simp)] at hc
        rcases List.mem_cons.mp hc with h | hc2
        · exact Or.inl h
        · rcases ih true c hc2 with h | ⟨h1, h2⟩
          · exact Or.inl h
          · exact Or.inr ⟨List.mem_cons_of_mem a h1, h2⟩
    · rw [if_neg hw] at hc
      rcases List.mem_cons.mp hc with h | hc2
      · subst h
        exact Or.inr ⟨List.mem_cons_self c rest, by simpa using hw⟩
      · rcases ih false c hc2 with h | ⟨h1, h2⟩
        · exact Or.inl h
        · exact Or.inr ⟨List.mem_cons_of_mem a h1, h2⟩

/-- C7: the category-to-badge-class mapping lower-cases and collapses
whitespace runs to single hyphens: "NDA Activity" maps to "nda-activity"
(also with a doubled internal space), an absent category yields the fixed
"badge-uncategorised" class, and in general every slug character is a
hyphen or a lower-cased input character, never whitespace. -/
theorem badge_class_mapping :
    categoryToSlug "NDA Activity" = "nda-activity" ∧
    categoryToSlug "NDA  Activity" = "nda-activity" ∧
    (∀ fmt item, item.category = none →
        (renderCard fmt item).badgeClass = "badge-uncategorised") ∧
    (∀ cat : String, ∀ c ∈ (categoryToSlug cat).data,
        c = '-' ∨ (c ∈ cat.data.map Char.toLower ∧ c.isWhitespace = false)) := by
  refine ⟨by decide, by decide, ?_, ?_⟩
  · intro fmt item h
    simp only [renderCard, h, jsOr]
    decide
  · intro cat c hc
    simp only [categoryToSlug, collapseWs] at hc
    exact collapseWsAux_chars (cat.data.map Char.toLower) false c hc

/-- C7 witness: a story with no category gets the fixed fallback badge
class. -/
theorem badge_class_mapping_witness :
    (renderCard (fun x => x) (sampleStory "d")).badgeClass = "badge-uncategorised" :=
  badge_class_mapping.2.2.1 (fun x => x) (sampleStory "d") rfl

/-! ## Data for the Today-shortcut claim -/

def cexStories : List Story :=
  [sampleStory "2024-05-02T09:00", sampleStory "2024-05-01T09:00"]

def cexState : DashState :=
  ⟨cexStories, [], 1, 50, "", none, "All", "All", []⟩

/-- C1 counterexample: at 23:00 UTC on 2024-05-01, a viewer at UTC+5:30
(offset 330, local time 04:30 on 2024-05-02) gets the stories of the UTC
date 2024-05-01, not of the local date 2024-05-02: `toISOString` renders
the clock in UTC, so the handler's filter differs from the local-date
filter the claim specifies. -/
theorem today_not_local_cex :
    (step (constTz 330) ⟨⟨2024, 5, 1⟩, 1380⟩ .today cexState).filteredStories
      ≠ todayLocalSpec (constTz 330) ⟨⟨2024, 5, 1⟩, 1380⟩ cexState.stories := by decide

/-- C1 amended: the Today shortcut computes today's calendar date in UTC
(`toISOString`), keeps exactly the stories whose `pubDate` starts with
that date, takes at most the first 50 in order, forces itemsPerPage to
50, resets currentPage to 1, and leaves the filter inputs and the loaded
collection untouched; for a viewer whose clock offset is zero this
coincides with the local-date-prefix filter. -/
theorem today_shortcut_utc (tz : Tz) (now : Clock) (st : DashState) :
    (step tz now .today st).filteredStories
        = (st.stories.filter
            (fun s => strStartsWith s.pubDate (dateToStr now.utcDate))).take 50 ∧
    (step tz now .today st).itemsPerPage = 50 ∧
    (step tz now .today st).currentPage = 1 ∧
    (step tz now .today st).startInput = st.startInput ∧
    (step tz now .today st).endInput = st.endInput ∧
    (step tz now .today st).categoryInput = st.categoryInput ∧
    (step tz now .today st).districtInput = st.districtInput ∧
    (step tz now .today st).stories = st.stories ∧
    (now.utcMinute < 1440 → tz = constTz 0 →
      (step tz now .today st).filteredStories = todayLocalSpec tz now st.stories) := by
  refine ⟨rfl, rfl, rfl, rfl, rfl, rfl, rfl, rfl, ?_⟩
  intro hm h0
  subst h0
  have hlocal : (addOffset now.utcDate now.utcMinute 0).1 = now.utcDate := by
    simp only [addOffset]
    rw [if_neg (by omega), if_pos (by omega)]
  simp only [todayLocalSpec, constTz, hlocal]
  rfl

/-- C1 amended witness: at a zero offset the handler and the local-date
specification agree on a concrete state. -/
theorem today_shortcut_utc_witness :
    (step (constTz 0) ⟨⟨2024, 5, 2⟩, 540⟩ .today cexState).filteredStories
      = todayLocalSpec (constTz 0) ⟨⟨2024, 5, 2⟩, 540⟩ cexState.stories :=
  (today_shortcut_utc (constTz 0) ⟨⟨2024, 5, 2⟩, 540⟩ cexState).2.2.2.2.2.2.2.2
    (by decide) rfl

/-- C8 counterexample: a story with absent category and district still
renders, but its card's badge label and district text are the JS coercion
"undefined" — not the fallback label the claim describes. -/
theorem render_fallback_label_cex :
    (renderCard (fun x => x) (sampleStory "d")).badgeLabel = "undefined" ∧
    (renderCard (fun x => x) (sampleStory "d")).badgeLabel ≠ "Uncategorised" ∧
    (renderCard (fun x => x) (sampleStory "d")).meta
      = "d" ++ " • " ++ "src" ++ " • " ++ "undefined" := by decide

/-- C8 amended: missing optional fields never fail the render — every
story of a page yields a card — and the badge class does fall back to
"badge-uncategorised" for an absent category; but the badge label and the
district slot of the metadata line render the coerced text "undefined"
rather than designed fallback labels. -/
theorem render_tolerates_missing (fmt : String → String) (item : Story)
    (l : List Story) (hl : l ≠ []) :
    render fmt l = .cards (l.map (renderCard fmt)) ∧
    (item.category = none →
      (renderCard fmt item).badgeClass = "badge-uncategorised" ∧
      (renderCard fmt item).badgeLabel = "undefined") ∧
    (item.district = none →
      (renderCard fmt item).meta
        = fmt item.pubDate ++ " • " ++ item.source ++ " • " ++ "undefined") := by
  refine ⟨?_, ?_, ?_⟩
  · rw [render, if_neg (by simpa using hl)]
  · intro h
    refine ⟨?_, ?_⟩
    · simp only [renderCard, h, jsOr]
      decide
    · simp only [renderCard, h, jsUndef]
  · intro h
    simp only [renderCard, h, jsUndef]

/-- C8 amended witness: a non-empty page of one bare story renders to its
card list. -/
theorem render_tolerates_missing_witness :
    render (fun x => x) [sampleStory "d"]
      = .cards ([sampleStory "d"].map (renderCard (fun x => x))) :=
  (render_tolerates_missing (fun x => x) (sampleStory "d") [sampleStory "d"]
    (by simp)).1

end UPNews
